import Mathlib

/-!
Verification of `dq_health_check.py`: data-quality rule reconciliation.

Modelling conventions:
* Python `dict` (insertion-ordered) becomes an association list
  `List (String × β)`; assignment `d[k] = v` keeps the position of an
  existing key (`dictSet`), `d.get(k)` is first-match lookup (`dictGet`),
  `d.setdefault(k, []).append(v)` is `dictAppend`.
* A pandas cell is `Cell`: either NA or a string rendering of the value
  (`str(cell)` on NA gives the text "nan", as in Python).
* A `DataFrame` is its column-name list plus its rows; a row is a total
  function from column name to `Cell`; `len(df)` is the row count.
* Python `set` of strings becomes `Finset String`. CPython's `list(set)`
  enumerates a set in unspecified hash order, so `rules_from_df` is
  parametric in an enumeration function `enum`; a run of the program
  corresponds to an `enum` that lists the relevant set without
  duplicates, in some order.
* `raise` becomes `Except.error`: `rules_from_df` raises the schema error,
  `run_health_check` raises on empty input and on an unknown main key
  (`sources[main_key]` is a `KeyError` in Python).
-/

/-- A spreadsheet cell: NA (pandas missing value) or a string value. -/
inductive Cell where
  | na : Cell
  | str (s : String) : Cell
deriving DecidableEq, Repr

/-- Python `str(cell)`: `str(nan)` renders as "nan". -/
def Cell.toStr : Cell → String
  | Cell.na => "nan"
  | Cell.str s => s

/-- A parsed sheet: named columns and rows; a row maps a column name to its cell. -/
structure DataFrame where
  columns : List String
  rows : List (String → Cell)

/-- Row count, Python `len(df)`. -/
def DataFrame.size (df : DataFrame) : Nat := df.rows.length

/-- One data-quality rule: a name and a raw comma-separated header string. -/
structure DataQualityRule where
  data_quality_control_name : String
  header : String
deriving DecidableEq, Repr

/-- Python `s.split(",")` on the character list: split at every comma,
keeping empty pieces ("".split(",") is [""]). Modelled structurally so it
evaluates in the kernel (Lean's own `String.splitOn` does not reduce). -/
def splitCommaAux : List Char → List Char → List (List Char)
  | [], cur => [cur.reverse]
  | c :: rest, cur =>
      if c = ',' then cur.reverse :: splitCommaAux rest []
      else splitCommaAux rest (c :: cur)

/-- Python `s.split(",")`. -/
def pySplitComma (s : String) : List String :=
  (splitCommaAux s.data []).map (fun cs => String.mk cs)

/-- Python `s.strip()`: drop whitespace from both ends. -/
def pyStrip (s : String) : String :=
  String.mk
    (((s.data.dropWhile Char.isWhitespace).reverse.dropWhile
      Char.isWhitespace).reverse)

/-- Python `s.lower()` (ASCII model, per character). -/
def pyLower (s : String) : String :=
  String.mk (s.data.map Char.toLower)

/-- `normalized_name`: trimmed, lower-cased rule name. -/
def DataQualityRule.normalized_name (r : DataQualityRule) : String :=
  pyLower (pyStrip r.data_quality_control_name)

/-- `header_set`: set of trimmed, lower-cased comma-separated tokens; empty
tokens are dropped; an empty header string gives the empty set. -/
def DataQualityRule.header_set (r : DataQualityRule) : Finset String :=
  if r.header = "" then ∅
  else (((pySplitComma r.header).filter (fun h => decide (pyStrip h ≠ ""))).map
    (fun h => pyLower (pyStrip h))).toFinset

/-- One uploaded source: display name, parsed sheet, extracted rules, and the
declared fields (field name paired with `meta.get("header")`). -/
structure DataSet where
  name : String
  dataframe : DataFrame
  dq_rules : List DataQualityRule
  fields : List (String × Option String)

/-- `rule_names`: the set of normalized rule names of a source. -/
def DataSet.rule_names (s : DataSet) : Finset String :=
  (s.dq_rules.map (fun r => r.normalized_name)).toFinset

/-- `rule_by_name().get(n)`: the dict comprehension keeps the LAST rule with a
given normalized name, so lookup finds the last matching rule. -/
def DataSet.rule_by_name (s : DataSet) (n : String) : Option DataQualityRule :=
  s.dq_rules.reverse.find? (fun r => decide (r.normalized_name = n))

/-- Keys of an association list. -/
def dictKeys {β : Type} (d : List (String × β)) : List String :=
  d.map (fun p => p.1)

/-- Python dict lookup: first (unique-key) match. -/
def dictGet {β : Type} (d : List (String × β)) (k : String) : Option β :=
  (d.find? (fun p => decide (p.1 = k))).map (fun p => p.2)

/-- Python dict assignment `d[k] = v`: update in place or append a new entry. -/
def dictSet {β : Type} (d : List (String × β)) (k : String) (v : β) :
    List (String × β) :=
  if (dictKeys d).contains k then
    d.map (fun p => if p.1 = k then (k, v) else p)
  else d ++ [(k, v)]

/-- Python `d.setdefault(k, []).append(v)`. -/
def dictAppend (d : List (String × List String)) (k : String) (v : String) :
    List (String × List String) :=
  if (dictKeys d).contains k then
    d.map (fun p => if p.1 = k then (p.1, p.2 ++ [v]) else p)
  else d ++ [(k, [v])]

/-- Status glyphs. -/
def okMark : String := "✅"

/-- Failure glyph. -/
def failMark : String := "🛑"

/-- Info glyph. -/
def infoMark : String := "📝"

/-- Single-quote character, used by the report messages. -/
def squote : String := (Char.ofNat 39).toString

/-- The required columns of a rules sheet, a Python set literal. -/
def requiredColumns : Finset String := {"data_quality_control_name", "header"}

/-- The error raised by rule extraction: carries the missing column names. -/
structure SchemaError where
  missing : List String
deriving DecidableEq, Repr

/-- `rules_from_df`: checks the required columns, then builds one rule per
row; the header cell becomes "" when NA, otherwise its string rendering.
The error branch runs Python's `list(required - set(df.columns))`, whose
order is the set's unspecified iteration order: it is modelled by the
parameter `enum`, which a theorem constrains to enumerate the set
difference faithfully (each element once) but in no particular order. -/
def rules_from_df (enum : Finset String → List String) (df : DataFrame) :
    Except SchemaError (List DataQualityRule) :=
  if requiredColumns ⊆ df.columns.toFinset then
    Except.ok (df.rows.map (fun row =>
      { data_quality_control_name := (row "data_quality_control_name").toStr
        header := match row "header" with
          | Cell.na => ""
          | Cell.str s => s }))
  else
    Except.error { missing := enum (requiredColumns \ df.columns.toFinset) }

/-- Whether a declared field counts as missing: expected header falsy
(absent or empty) or not an actual column name (exact match). -/
def fieldMissing (cols : List String) (hdr : Option String) : Bool :=
  match hdr with
  | none => true
  | some h => decide (h = "") || !cols.contains h

/-- The per-source list of missing field names, in field insertion order. -/
def missingFields (src : DataSet) : List String :=
  (src.fields.filter (fun f => fieldMissing src.dataframe.columns f.2)).map
    (fun f => f.1)

/-- The loop of `find_missing_headers`, accumulating the result dict. -/
def find_missing_headers_loop (acc : List (String × List String)) :
    List (String × DataSet) → List (String × List String)
  | [] => acc
  | (_, src) :: rest =>
      let missing := missingFields src
      find_missing_headers_loop
        (if missing = [] then acc else dictSet acc src.name missing) rest

/-- `find_missing_headers`: per source, the declared fields whose expected
header is falsy or not a column; sources with none are omitted. -/
def find_missing_headers (sources : List (String × DataSet)) :
    List (String × List String) :=
  find_missing_headers_loop [] sources

/-- The failure message of `compare_rule_counts` (note: no trailing
"rules" after the second count, exactly as the f-string has it). -/
def countFailMsg (mainName : String) (m : Nat) (otherName : String) (n : Nat) :
    String :=
  failMark ++ " " ++ squote ++ mainName ++ squote ++ " has " ++ toString m ++
    " rules; " ++ squote ++ otherName ++ squote ++ " has " ++ toString n ++ "."

/-- The success message of `compare_rule_counts`. -/
def countOkMsg (mainName : String) : String :=
  okMark ++ " All sources have the same number of rules as " ++ squote ++
    mainName ++ squote ++ "."

/-- `compare_rule_counts`: short-circuits at the first other source whose
row count differs from main's. -/
def compare_rule_counts (main : DataSet) :
    List (String × DataSet) → Bool × String
  | [] => (true, countOkMsg main.name)
  | (_, s) :: rest =>
      if s.dataframe.size ≠ main.dataframe.size then
        (false, countFailMsg main.name main.dataframe.size s.name s.dataframe.size)
      else compare_rule_counts main rest

/-- The sorted list Python builds from `other.rule_names() - main.rule_names()`. -/
def exclusiveList (main s : DataSet) : List String :=
  Finset.sort (fun a b => a ≤ b) (s.rule_names \ main.rule_names)

/-- The loop of `exclusive_rule_names`. -/
def exclusive_loop (main : DataSet) (acc : List (String × List String)) :
    List (String × DataSet) → List (String × List String)
  | [] => acc
  | (_, s) :: rest =>
      let only_there := s.rule_names \ main.rule_names
      exclusive_loop main
        (if only_there = ∅ then acc
         else dictSet acc s.name (Finset.sort (fun a b => a ≤ b) only_there)) rest

/-- `exclusive_rule_names`: per other source, the rules only it has
(difference of normalized-name sets against main), sorted; empty
differences are omitted. -/
def exclusive_rule_names (main : DataSet) (others : List (String × DataSet)) :
    List (String × List String) :=
  exclusive_loop main [] others

/-- The inner loop of `sync_check` over one source's rules: a rule unknown
to main is skipped; a known rule with a different header set appends the
rule's original display name under the source's name. -/
def sync_inner (main : DataSet) (sname : String)
    (acc : List (String × List String)) :
    List DataQualityRule → List (String × List String)
  | [] => acc
  | r :: rest =>
      match main.rule_by_name r.normalized_name with
      | none => sync_inner main sname acc rest
      | some mr =>
          if r.header_set ≠ mr.header_set then
            sync_inner main sname (dictAppend acc sname r.data_quality_control_name) rest
          else sync_inner main sname acc rest

/-- The outer loop of `sync_check` over the other sources. -/
def sync_loop (main : DataSet) (acc : List (String × List String)) :
    List (String × DataSet) → List (String × List String)
  | [] => acc
  | (_, s) :: rest => sync_loop main (sync_inner main s.name acc s.dq_rules) rest

/-- `sync_check`: per other source, the display names of its rules whose
header set disagrees with the same-named rule of main. -/
def sync_check (main : DataSet) (others : List (String × DataSet)) :
    List (String × List String) :=
  sync_loop main [] others

/-- Errors of the orchestrator: empty input (a `ValueError` in Python) and
unknown main key (the `KeyError` of `sources[main_key]`). -/
inductive HealthError where
  | emptyInput : HealthError
  | keyError (key : String) : HealthError
deriving DecidableEq, Repr

/-- The report dict returned by `run_health_check`. -/
structure Report where
  ok : Bool
  missing_headers : List (String × List String)
  main_source : String
  rule_count_ok : Bool
  rule_count_msg : String
  exclusives : List (String × List String)
  mismatches : List (String × List String)
  emoji : List (String × String)
deriving DecidableEq, Repr

/-- `run_health_check`: the orchestrator. Missing-header check always runs;
exclusives and sync run only when row counts matched; overall `ok` is the
conjunction of the four findings being clean. -/
def run_health_check (sources : List (String × DataSet))
    (main_key : Option String) : Except HealthError Report :=
  match sources with
  | [] => Except.error HealthError.emptyInput
  | (k0, _) :: _ =>
      let missing := find_missing_headers sources
      let mk := main_key.getD k0
      match dictGet sources mk with
      | none => Except.error (HealthError.keyError mk)
      | some main =>
          let others := sources.filter (fun p => p.1 ≠ mk)
          let cr := compare_rule_counts main others
          let exclusives := if cr.1 then exclusive_rule_names main others else []
          let mismatches := if cr.1 then sync_check main others else []
          Except.ok {
            ok := missing.isEmpty && cr.1 && exclusives.isEmpty && mismatches.isEmpty
            missing_headers := missing
            main_source := main.name
            rule_count_ok := cr.1
            rule_count_msg := cr.2
            exclusives := exclusives
            mismatches := mismatches
            emoji := [("OK", okMark), ("FAIL", failMark), ("INFO", infoMark)] }

/-! Concrete sample data used by the closed witnesses below. -/

/-- A row whose cells are all NA. -/
def rowNa : String → Cell := fun _ => Cell.na

/-- A one-row source named "A". -/
def dsA : DataSet :=
  { name := "A", dataframe := { columns := [], rows := [rowNa] },
    dq_rules := [], fields := [] }

/-- A two-row source named "B". -/
def dsB : DataSet :=
  { name := "B", dataframe := { columns := [], rows := [rowNa, rowNa] },
    dq_rules := [], fields := [] }

/-- A one-row source named "C". -/
def dsC : DataSet :=
  { name := "C", dataframe := { columns := [], rows := [rowNa] },
    dq_rules := [], fields := [] }

/-- A table lacking the rule-name column. -/
def dfMissingName : DataFrame := { columns := ["header"], rows := [] }

/-- A one-row table with both required columns. -/
def dfBoth : DataFrame :=
  { columns := ["header", "data_quality_control_name"], rows := [rowNa] }

/-- C5: `run_health_check` raises the empty-input error exactly when the
sources mapping is empty; on empty input no report is produced. -/
theorem run_health_check_emptyInput_iff (sources : List (String × DataSet))
    (main_key : Option String) :
    run_health_check sources main_key = Except.error HealthError.emptyInput ↔
      sources = [] := by
  cases sources with
  | nil => simp [run_health_check]
  | cons p rest =>
      obtain ⟨k0, s0⟩ := p
      simp only [run_health_check]
      cases hg : dictGet ((k0, s0) :: rest) (main_key.getD k0) <;> simp [hg]

/-- C5 witness: the empty mapping yields the empty-input error. -/
theorem run_health_check_emptyInput_iff_witness :
    run_health_check [] none = Except.error HealthError.emptyInput :=
  (run_health_check_emptyInput_iff [] none).mpr rfl

/-- C10: a supplied main key that is not a key of a non-empty sources
mapping makes `run_health_check` fail with a key-lookup error: no fallback
to the first source, no report. -/
theorem run_health_check_bad_main_key (sources : List (String × DataSet))
    (k : String) (h1 : sources ≠ []) (h2 : dictGet sources k = none) :
    run_health_check sources (some k) = Except.error (HealthError.keyError k) := by
  cases sources with
  | nil => exact absurd rfl h1
  | cons p rest =>
      obtain ⟨k0, s0⟩ := p
      simp only [run_health_check, Option.getD_some]
      simp [h2]

/-- C10 witness: key "zz" is absent from a singleton mapping. -/
theorem run_health_check_bad_main_key_witness :
    run_health_check [("s1", dsA)] (some "zz") =
      Except.error (HealthError.keyError "zz") :=
  run_health_check_bad_main_key [("s1", dsA)] "zz" (by simp) rfl

/-- The failure message as claim C3 words it, with a trailing "rules"
after the second count (the code emits no such word there). -/
def claimedCountFailMsg (mainName : String) (m : Nat) (otherName : String)
    (n : Nat) : String :=
  failMark ++ " " ++ squote ++ mainName ++ squote ++ " has " ++ toString m ++
    " rules; " ++ squote ++ otherName ++ squote ++ " has " ++ toString n ++ " rules."

/-- C3 counterexample: with main "A" (1 row) and other "B" (2 rows) the
returned pair is not the claimed one — the actual message ends with
"has 2." while the claim predicts "has 2 rules.". -/
theorem compare_rule_counts_msg_counterexample :
    compare_rule_counts dsA [("k2", dsB)] ≠ (false, claimedCountFailMsg "A" 1 "B" 2) := by
  decide

/-- C3 (amended): `compare_rule_counts` returns, at the first other source
(in insertion order) whose row count differs from main's, the pair
`(false, "<FAIL> <main> has <m> rules; <other> has <n>.")` — with no word
after the second count — without examining later sources; when no other
source differs it returns `(true, "<OK> All sources have the same number
of rules as <main>.")`. -/
theorem compare_rule_counts_spec (main : DataSet)
    (pre post : List (String × DataSet)) (k : String) (s : DataSet)
    (hpre : ∀ p ∈ pre, p.2.dataframe.size = main.dataframe.size) :
    compare_rule_counts main pre = (true, countOkMsg main.name) ∧
    (s.dataframe.size ≠ main.dataframe.size →
      compare_rule_counts main (pre ++ (k, s) :: post) =
        (false, countFailMsg main.name main.dataframe.size s.name
          s.dataframe.size)) := by
  revert hpre
  induction pre with
  | nil =>
      intro _
      refine ⟨rfl, fun hs => ?_⟩
      simp [compare_rule_counts, hs]
  | cons p rest ih =>
      intro hpre
      obtain ⟨k0, s0⟩ := p
      have h0 : s0.dataframe.size = main.dataframe.size := hpre (k0, s0) (by simp)
      have hrest : ∀ p ∈ rest, p.2.dataframe.size = main.dataframe.size :=
        fun p hp => hpre p (by simp [hp])
      obtain ⟨ih1, ih2⟩ := ih hrest
      constructor
      · simpa [compare_rule_counts, h0] using ih1
      · intro hs
        simpa [compare_rule_counts, h0] using ih2 hs

/-- C3 witness: main "A" (1 row), a clean source "C" (1 row), then the
mismatching "B" (2 rows), then a later source that is never examined. -/
theorem compare_rule_counts_spec_witness :
    compare_rule_counts dsA [("x", dsC)] = (true, countOkMsg dsA.name) ∧
    compare_rule_counts dsA ([("x", dsC)] ++ ("k2", dsB) :: [("z", dsA)]) =
      (false, countFailMsg dsA.name dsA.dataframe.size dsB.name
        dsB.dataframe.size) := by
  have h := compare_rule_counts_spec dsA [("x", dsC)] [("z", dsA)] "k2" dsB
    (by intro p hp; rw [List.mem_singleton.mp hp]; decide)
  exact ⟨h.1, h.2 (by decide)⟩

/-- A table with no columns at all: both required columns are missing. -/
def dfNoCols : DataFrame := { columns := [], rows := [] }

/-- An admissible set-iteration order that lists the two required columns
with "header" first — one of the hash orders CPython may use. -/
def revEnum : Finset String → List String :=
  fun _ => ["header", "data_quality_control_name"]

/-- An admissible set-iteration order for the singleton missing-name set. -/
def enumName : Finset String → List String :=
  fun _ => ["data_quality_control_name"]

/-- A set-iteration order listing the empty set as the empty list. -/
def enumEmpty : Finset String → List String := fun _ => []

/-- C4 counterexample: with both required columns missing, an iteration
order that is admissible for the missing set (it lists that set exactly,
without duplicates) makes rule extraction carry
["header", "data_quality_control_name"], which is not sorted — the carried
order is the set's unspecified iteration order, not sorted order. -/
theorem rules_from_df_sorted_counterexample :
    (revEnum (requiredColumns \ dfNoCols.columns.toFinset)).toFinset =
        requiredColumns \ dfNoCols.columns.toFinset ∧
    (revEnum (requiredColumns \ dfNoCols.columns.toFinset)).Nodup ∧
    rules_from_df revEnum dfNoCols =
      Except.error { missing := ["header", "data_quality_control_name"] } ∧
    ¬ List.Sorted (fun a b => a ≤ b)
      ["header", "data_quality_control_name"] := by
  refine ⟨by decide, by decide, rfl, fun hs => ?_⟩
  have h1 : ("header" : String) ≤ "data_quality_control_name" :=
    List.rel_of_sorted_cons hs _ (by simp)
  have h2 : ¬ ("header" : String) ≤ "data_quality_control_name" := by
    rw [String.le_iff_toList_le]
    decide
  exact h2 h1

/-- C4 (amended): rule extraction on a table missing a required column
fails, under any admissible iteration order of the missing set, with a
schema error carrying each missing required column name exactly once, in
the set's unspecified iteration order (not necessarily sorted), and no
partial rule list is produced (the error branch carries no rules); on a
table with both required columns it succeeds with one rule per row. -/
theorem rules_from_df_spec (enum : Finset String → List String)
    (df : DataFrame) :
    ((∃ c ∈ requiredColumns, c ∉ df.columns) →
      (enum (requiredColumns \ df.columns.toFinset)).toFinset =
          requiredColumns \ df.columns.toFinset →
      (enum (requiredColumns \ df.columns.toFinset)).Nodup →
      ∃ e, rules_from_df enum df = Except.error e ∧
        (∀ c, c ∈ e.missing ↔ (c ∈ requiredColumns ∧ c ∉ df.columns)) ∧
        e.missing.Nodup) ∧
    ((∀ c ∈ requiredColumns, c ∈ df.columns) →
      ∃ rs, rules_from_df enum df = Except.ok rs ∧ rs.length = df.rows.length) := by
  constructor
  · intro hmiss h1 h2
    have hcond : ¬ requiredColumns ⊆ df.columns.toFinset := by
      obtain ⟨c, hc, hnc⟩ := hmiss
      intro hsub
      exact hnc (List.mem_toFinset.mp (hsub hc))
    refine ⟨{ missing := enum (requiredColumns \ df.columns.toFinset) },
      ?_, fun c => ?_, h2⟩
    · unfold rules_from_df
      rw [if_neg hcond]
    · show c ∈ enum (requiredColumns \ df.columns.toFinset) ↔ _
      rw [← List.mem_toFinset, h1, Finset.mem_sdiff, List.mem_toFinset]
  · intro hall
    have hcond : requiredColumns ⊆ df.columns.toFinset :=
      Finset.subset_iff.mpr (fun c hc => List.mem_toFinset.mpr (hall c hc))
    refine ⟨df.rows.map (fun row =>
      { data_quality_control_name := (row "data_quality_control_name").toStr
        header := match row "header" with
          | Cell.na => ""
          | Cell.str s => s }), ?_, ?_⟩
    · unfold rules_from_df
      rw [if_pos hcond]
    · simp

/-- C4 witness: a table lacking the name column fails carrying exactly
that name once, under an admissible iteration order; a complete one-row
table yields one rule. -/
theorem rules_from_df_spec_witness :
    (∃ e, rules_from_df enumName dfMissingName = Except.error e ∧
      (∀ c, c ∈ e.missing ↔ (c ∈ requiredColumns ∧ c ∉ dfMissingName.columns)) ∧
      e.missing.Nodup) ∧
    (∃ rs, rules_from_df enumEmpty dfBoth = Except.ok rs ∧
      rs.length = dfBoth.rows.length) :=
  ⟨(rules_from_df_spec enumName dfMissingName).1
      ⟨"data_quality_control_name", by decide, by decide⟩ (by decide) (by decide),
    (rules_from_df_spec enumEmpty dfBoth).2 (by decide)⟩

/-- The report produced for the single clean source `dsA`. -/
def rptA : Report :=
  { ok := true
    missing_headers := []
    main_source := "A"
    rule_count_ok := true
    rule_count_msg := countOkMsg "A"
    exclusives := []
    mismatches := []
    emoji := [("OK", okMark), ("FAIL", failMark), ("INFO", infoMark)] }

/-- C1: any report actually returned by `run_health_check` has `ok = true`
iff its missing-headers mapping is empty, its row counts matched, and its
exclusives and mismatches mappings are empty. -/
theorem run_health_check_ok_iff (sources : List (String × DataSet))
    (main_key : Option String) (r : Report)
    (h : run_health_check sources main_key = Except.ok r) :
    (r.ok = true ↔
      (r.missing_headers = [] ∧ r.rule_count_ok = true ∧
        r.exclusives = [] ∧ r.mismatches = [])) := by
  cases sources with
  | nil => simp [run_health_check] at h
  | cons p rest =>
      obtain ⟨k0, s0⟩ := p
      simp only [run_health_check] at h
      cases hg : dictGet ((k0, s0) :: rest) (main_key.getD k0) with
      | none =>
          rw [hg] at h
          cases h
      | some main =>
          rw [hg] at h
          injection h with h2
          subst h2
          simp [Bool.and_eq_true, and_assoc]

/-- C1 witness: the single-source run returns `rptA`, whose `ok` flag
matches the conjunction of its four clean findings. -/
theorem run_health_check_ok_iff_witness :
    rptA.ok = true ↔
      (rptA.missing_headers = [] ∧ rptA.rule_count_ok = true ∧
        rptA.exclusives = [] ∧ rptA.mismatches = []) :=
  run_health_check_ok_iff [("s1", dsA)] none rptA rfl

/-- The boolean of `compare_rule_counts` is true exactly when no other
source's row count differs from main's. -/
theorem compare_rule_counts_fst_true_iff (main : DataSet)
    (others : List (String × DataSet)) :
    (compare_rule_counts main others).1 = true ↔
      ∀ p ∈ others, p.2.dataframe.size = main.dataframe.size := by
  induction others with
  | nil => simp [compare_rule_counts]
  | cons p rest ih =>
      obtain ⟨k, s⟩ := p
      by_cases hs : s.dataframe.size = main.dataframe.size
      · simp only [compare_rule_counts]
        rw [if_neg (not_not_intro hs), ih]
        simp [List.forall_mem_cons, hs]
      · simp only [compare_rule_counts]
        rw [if_pos hs]
        constructor
        · intro hfalse
          exact absurd hfalse (by simp)
        · intro hall
          exact absurd (hall (k, s) (List.mem_cons_self _ _)) hs

/-- C2: when some non-main source's row count differs from main's, the
returned report has `rule_count_ok = false` and both the exclusives and
the mismatches mappings empty (those checks are skipped). -/
theorem run_health_check_count_mismatch_skips (k0 : String) (s0 : DataSet)
    (rest : List (String × DataSet)) (main_key : Option String) (main : DataSet)
    (hmain : dictGet ((k0, s0) :: rest) (main_key.getD k0) = some main)
    (hdiff : ∃ p ∈ ((k0, s0) :: rest).filter (fun q => q.1 ≠ main_key.getD k0),
      p.2.dataframe.size ≠ main.dataframe.size) :
    ∃ r, run_health_check ((k0, s0) :: rest) main_key = Except.ok r ∧
      r.rule_count_ok = false ∧ r.exclusives = [] ∧ r.mismatches = [] := by
  have hfalse : (compare_rule_counts main
      (((k0, s0) :: rest).filter (fun q => q.1 ≠ main_key.getD k0))).1 = false := by
    obtain ⟨p, hp, hne⟩ := hdiff
    rcases Bool.eq_false_or_eq_true (compare_rule_counts main
        (((k0, s0) :: rest).filter (fun q => q.1 ≠ main_key.getD k0))).1 with h | h
    · rw [compare_rule_counts_fst_true_iff] at h
      exact absurd (h p hp) hne
    · exact h
  simp only [ne_eq, decide_not] at hfalse
  simp only [run_health_check]
  rw [hmain]
  refine ⟨_, rfl, ?_, ?_, ?_⟩
  · simpa using hfalse
  · simp [hfalse]
  · simp [hfalse]

/-- C2 witness: main "A" has 1 row, the other source "B" has 2 rows. -/
theorem run_health_check_count_mismatch_skips_witness :
    ∃ r, run_health_check [("s1", dsA), ("s2", dsB)] none = Except.ok r ∧
      r.rule_count_ok = false ∧ r.exclusives = [] ∧ r.mismatches = [] :=
  run_health_check_count_mismatch_skips "s1" dsA [("s2", dsB)] none dsA rfl
    ⟨("s2", dsB), by
      have heval : ([("s1", dsA), ("s2", dsB)]).filter
          (fun q => q.1 ≠ (none : Option String).getD "s1") = [("s2", dsB)] := rfl
      rw [heval]
      exact List.mem_cons_self _ _,
      by decide⟩

/-- Setting a fresh key appends the entry at the end of the dict. -/
theorem dictSet_fresh {β : Type} (d : List (String × β)) (k : String) (v : β)
    (h : k ∉ dictKeys d) : dictSet d k v = d ++ [(k, v)] := by
  unfold dictSet
  rw [if_neg (fun hc => h (List.elem_iff.mp hc))]

/-- Appending under a fresh key creates a singleton-list entry at the end. -/
theorem dictAppend_fresh (d : List (String × List String)) (k : String)
    (v : String) (h : k ∉ dictKeys d) : dictAppend d k v = d ++ [(k, [v])] := by
  unfold dictAppend
  rw [if_neg (fun hc => h (List.elem_iff.mp hc))]

/-- Appending under the key of the last entry extends that entry in place. -/
theorem dictAppend_last (d : List (String × List String)) (k : String)
    (l : List String) (v : String) (h : k ∉ dictKeys d) :
    dictAppend (d ++ [(k, l)]) k v = d ++ [(k, l ++ [v])] := by
  unfold dictAppend
  have hc : (dictKeys (d ++ [(k, l)])).contains k = true := by
    apply List.elem_iff.mpr
    unfold dictKeys
    rw [List.map_append]
    exact List.mem_append.mpr (Or.inr (by simp))
  rw [if_pos hc, List.map_append]
  have hmap : d.map (fun p => if p.1 = k then (p.1, p.2 ++ [v]) else p) = d := by
    have hpt : ∀ p ∈ d, (if p.1 = k then (p.1, p.2 ++ [v]) else p) = p := by
      intro p hp
      rw [if_neg]
      intro he
      exact h (he ▸ List.mem_map_of_mem (fun q => q.1) hp)
    exact (List.map_congr_left hpt).trans (List.map_id d)
  rw [hmap]
  simp

/-- The shared shape of the missing-header and exclusive-rule loops: per
source compute a list, store non-empty lists under the source's name. -/
def collectLoop (f : DataSet → List String) (acc : List (String × List String)) :
    List (String × DataSet) → List (String × List String)
  | [] => acc
  | (_, s) :: rest =>
      collectLoop f (if f s = [] then acc else dictSet acc s.name (f s)) rest

/-- When the source display names are distinct and fresh with respect to the
accumulator, the collect loop appends one entry per source with a non-empty
list, in source order. -/
theorem collectLoop_eq (f : DataSet → List String)
    (acc : List (String × List String)) (others : List (String × DataSet))
    (hfresh : ∀ p ∈ others, p.2.name ∉ dictKeys acc)
    (hnodup : (others.map (fun p => p.2.name)).Nodup) :
    collectLoop f acc others =
      acc ++ (others.map (fun p => (p.2.name, f p.2))).filter (fun q => ¬ q.2 = []) := by
  revert hfresh hnodup
  induction others generalizing acc with
  | nil =>
      intro _ _
      simp [collectLoop]
  | cons p rest ih =>
      intro hfresh hnodup
      obtain ⟨k, s⟩ := p
      have hsname : s.name ∉ rest.map (fun p => p.2.name) :=
        (List.nodup_cons.mp (by simpa using hnodup)).1
      have htail : (rest.map (fun p => p.2.name)).Nodup :=
        (List.nodup_cons.mp (by simpa using hnodup)).2
      rw [collectLoop]
      by_cases hf : f s = []
      · rw [if_pos hf,
          ih acc (fun q hq => hfresh q (List.mem_cons_of_mem _ hq)) htail]
        simp [hf]
      · rw [if_neg hf, dictSet_fresh acc s.name (f s)
          (hfresh (k, s) (List.mem_cons_self _ _))]
        rw [ih (acc ++ [(s.name, f s)]) ?_ htail]
        · simp [hf, List.append_assoc]
        · intro q hq hmem
          unfold dictKeys at hmem
          rw [List.map_append] at hmem
          rcases List.mem_append.mp hmem with h1 | h2
          · exact hfresh q (List.mem_cons_of_mem _ hq) h1
          · have hqs : q.2.name = s.name := by simpa using h2
            exact hsname (hqs ▸ List.mem_map_of_mem (fun p => p.2.name) hq)

/-- The missing-headers loop is an instance of the collect loop. -/
theorem find_missing_headers_loop_eq (acc : List (String × List String))
    (sources : List (String × DataSet)) :
    find_missing_headers_loop acc sources = collectLoop missingFields acc sources := by
  induction sources generalizing acc with
  | nil => rfl
  | cons p rest ih =>
      obtain ⟨k, src⟩ := p
      rw [find_missing_headers_loop, collectLoop, ih]

/-- The exclusive-rules loop is an instance of the collect loop. -/
theorem exclusive_loop_eq (main : DataSet) (acc : List (String × List String))
    (others : List (String × DataSet)) :
    exclusive_loop main acc others =
      collectLoop (fun s => exclusiveList main s) acc others := by
  induction others generalizing acc with
  | nil => rfl
  | cons p rest ih =>
      obtain ⟨k, s⟩ := p
      rw [exclusive_loop, collectLoop, ih]
      have hiff : (s.rule_names \ main.rule_names = ∅) ↔ (exclusiveList main s = []) := by
        unfold exclusiveList
        constructor
        · intro h
          rw [h]
          exact Finset.sort_empty _
        · intro h
          calc s.rule_names \ main.rule_names
              = (Finset.sort (fun a b => a ≤ b)
                  (s.rule_names \ main.rule_names)).toFinset :=
                (Finset.sort_toFinset _ _).symm
            _ = ∅ := by rw [h]; rfl
      rw [if_congr hiff rfl rfl]
      rfl

/-- A source declaring a present field, an absent-header field, an
empty-header field and a field whose header is not a column. -/
def dsW : DataSet :=
  { name := "W"
    dataframe := { columns := ["col1"], rows := [] }
    dq_rules := []
    fields := [("f1", some "col1"), ("f2", none), ("f3", some ""),
      ("f4", some "colX")] }

/-- A source declaring only present fields. -/
def dsV : DataSet :=
  { name := "V"
    dataframe := { columns := ["c"], rows := [] }
    dq_rules := []
    fields := [("g1", some "c")] }

/-- C8: a declared field is marked missing exactly when its expected header
is absent or empty or not an actual column name (exact match), the
per-source lists keep field order, and a source with no missing fields has
no entry in the result. -/
theorem find_missing_headers_spec (sources : List (String × DataSet))
    (hnodup : (sources.map (fun p => p.2.name)).Nodup) :
    find_missing_headers sources =
      (sources.map (fun p => (p.2.name,
        (p.2.fields.filter (fun f => fieldMissing p.2.dataframe.columns f.2)).map
          (fun f => f.1)))).filter (fun q => ¬ q.2 = []) ∧
    (∀ cols, fieldMissing cols none = true) ∧
    (∀ cols h, fieldMissing cols (some h) = true ↔ (h = "" ∨ h ∉ cols)) := by
  refine ⟨?_, fun cols => rfl, fun cols h => ?_⟩
  · rw [find_missing_headers, find_missing_headers_loop_eq,
      collectLoop_eq missingFields [] sources (by simp [dictKeys]) hnodup]
    rfl
  · simp [fieldMissing]

/-- C8 witness: "W" declares a present field, an absent-header field, an
empty-header field and a non-column field (three missing, field order
kept); "V" declares only present fields and is omitted. -/
theorem find_missing_headers_spec_witness :
    find_missing_headers [("s1", dsW), ("s2", dsV)] =
      (([("s1", dsW), ("s2", dsV)]).map (fun p => (p.2.name,
        (p.2.fields.filter (fun f => fieldMissing p.2.dataframe.columns f.2)).map
          (fun f => f.1)))).filter (fun q => ¬ q.2 = []) ∧
    (∀ cols, fieldMissing cols none = true) ∧
    (∀ cols h, fieldMissing cols (some h) = true ↔ (h = "" ∨ h ∉ cols)) :=
  find_missing_headers_spec [("s1", dsW), ("s2", dsV)] (by decide)

/-- C6: `exclusive_rule_names` maps each other source's display name to the
sorted set difference `other.rule_names − main.rule_names`; every stored
sequence is sorted and presents exactly that set difference; a source
whose difference is empty is absent from the result. -/
theorem exclusive_rule_names_spec (main : DataSet)
    (others : List (String × DataSet))
    (hnodup : (others.map (fun p => p.2.name)).Nodup) :
    exclusive_rule_names main others =
      (others.map (fun p => (p.2.name,
        Finset.sort (fun a b => a ≤ b) (p.2.rule_names \ main.rule_names)))).filter
        (fun q => ¬ q.2 = []) ∧
    (∀ q ∈ exclusive_rule_names main others,
      List.Sorted (fun a b => a ≤ b) q.2) ∧
    (∀ p ∈ others,
      (Finset.sort (fun a b => a ≤ b) (p.2.rule_names \ main.rule_names)).toFinset =
        p.2.rule_names \ main.rule_names) := by
  have heq : exclusive_rule_names main others =
      (others.map (fun p => (p.2.name, exclusiveList main p.2))).filter
        (fun q => ¬ q.2 = []) := by
    rw [exclusive_rule_names, exclusive_loop_eq,
      collectLoop_eq _ [] others (by simp [dictKeys]) hnodup]
    rfl
  refine ⟨heq, ?_, fun p _ => Finset.sort_toFinset _ _⟩
  intro q hq
  rw [heq] at hq
  obtain ⟨hq1, -⟩ := List.mem_filter.mp hq
  obtain ⟨p, -, rfl⟩ := List.mem_map.mp hq1
  show List.Sorted (fun a b => a ≤ b)
    (Finset.sort (fun a b => a ≤ b) (p.2.rule_names \ main.rule_names))
  exact Finset.sort_sorted _ _

/-- Main's rule for the sync examples. -/
def ruleA : DataQualityRule :=
  { data_quality_control_name := "Check A", header := "col1,col2" }

/-- Same rule as `ruleA` up to name case and header order. -/
def ruleA2 : DataQualityRule :=
  { data_quality_control_name := "check a", header := "col2, col1" }

/-- Same normalized name as `ruleA` but a different header set. -/
def ruleAx : DataQualityRule :=
  { data_quality_control_name := "CHECK A ", header := "colX" }

/-- A rule only the other source has. -/
def ruleB : DataQualityRule :=
  { data_quality_control_name := "B rule", header := "c1" }

/-- The main source of the rule-comparison examples. -/
def dsMain : DataSet :=
  { name := "M", dataframe := { columns := [], rows := [rowNa] },
    dq_rules := [ruleA], fields := [] }

/-- The other source of the rule-comparison examples. -/
def dsOther : DataSet :=
  { name := "O", dataframe := { columns := [], rows := [rowNa] },
    dq_rules := [ruleA2, ruleAx, ruleB], fields := [] }

/-- C6 witness: "O" has exactly one exclusive rule, "b rule". -/
theorem exclusive_rule_names_spec_witness :
    exclusive_rule_names dsMain [("o", dsOther)] =
      ([("o", dsOther)].map (fun p => (p.2.name,
        Finset.sort (fun a b => a ≤ b) (p.2.rule_names \ dsMain.rule_names)))).filter
        (fun q => ¬ q.2 = []) ∧
    (∀ q ∈ exclusive_rule_names dsMain [("o", dsOther)],
      List.Sorted (fun a b => a ≤ b) q.2) ∧
    (∀ p ∈ [("o", dsOther)],
      (Finset.sort (fun a b => a ≤ b) (p.2.rule_names \ dsMain.rule_names)).toFinset =
        p.2.rule_names \ dsMain.rule_names) :=
  exclusive_rule_names_spec dsMain [("o", dsOther)] (by decide)

/-- Whether a rule of another source counts as a sync mismatch against
main: main knows its normalized name and the header sets differ. -/
def headerMismatch (main : DataSet) (r : DataQualityRule) : Bool :=
  match main.rule_by_name r.normalized_name with
  | none => false
  | some mr => decide (r.header_set ≠ mr.header_set)

/-- Extending the inner sync loop when the source already has the last
entry of the dict: every further mismatch extends that entry in place. -/
theorem sync_inner_last (main : DataSet) (sname : String)
    (acc : List (String × List String)) (l : List String)
    (rules : List DataQualityRule) (h : sname ∉ dictKeys acc) :
    sync_inner main sname (acc ++ [(sname, l)]) rules =
      acc ++ [(sname, l ++ (rules.filter (fun r => headerMismatch main r)).map
        (fun r => r.data_quality_control_name))] := by
  induction rules generalizing l with
  | nil => simp [sync_inner]
  | cons r rest ih =>
      cases hmr : main.rule_by_name r.normalized_name with
      | none =>
          have hm : headerMismatch main r = false := by simp [headerMismatch, hmr]
          simp only [sync_inner, hmr]
          rw [ih l]
          simp [hm]
      | some mr =>
          by_cases hne : r.header_set ≠ mr.header_set
          · have hm : headerMismatch main r = true := by
              simp [headerMismatch, hmr, hne]
            simp only [sync_inner, hmr]
            rw [if_pos hne,
              dictAppend_last acc sname l r.data_quality_control_name h,
              ih (l ++ [r.data_quality_control_name])]
            simp [hm, List.append_assoc]
          · have heq : r.header_set = mr.header_set := not_not.mp hne
            have hm : headerMismatch main r = false := by
              simp [headerMismatch, hmr, heq]
            simp only [sync_inner, hmr]
            rw [if_neg hne, ih l]
            simp [hm]

/-- The inner sync loop from a dict not yet holding the source: it appends
one entry holding the mismatching rule names, or nothing when there are
none. -/
theorem sync_inner_fresh (main : DataSet) (sname : String)
    (acc : List (String × List String)) (rules : List DataQualityRule)
    (h : sname ∉ dictKeys acc) :
    sync_inner main sname acc rules =
      (if (rules.filter (fun r => headerMismatch main r)).map
          (fun r => r.data_quality_control_name) = [] then acc
        else acc ++ [(sname, (rules.filter (fun r => headerMismatch main r)).map
          (fun r => r.data_quality_control_name))]) := by
  induction rules with
  | nil => simp [sync_inner]
  | cons r rest ih =>
      cases hmr : main.rule_by_name r.normalized_name with
      | none =>
          have hm : headerMismatch main r = false := by simp [headerMismatch, hmr]
          simp only [sync_inner, hmr]
          rw [ih]
          simp [hm]
      | some mr =>
          by_cases hne : r.header_set ≠ mr.header_set
          · have hm : headerMismatch main r = true := by
              simp [headerMismatch, hmr, hne]
            simp only [sync_inner, hmr]
            rw [if_pos hne, dictAppend_fresh acc sname _ h,
              sync_inner_last main sname acc [r.data_quality_control_name] rest h]
            simp [hm]
          · have heq : r.header_set = mr.header_set := not_not.mp hne
            have hm : headerMismatch main r = false := by
              simp [headerMismatch, hmr, heq]
            simp only [sync_inner, hmr]
            rw [if_neg hne, ih]
            simp [hm]

/-- The outer sync loop under distinct, fresh display names: one entry per
other source holding a mismatch, in source order. -/
theorem sync_loop_eq (main : DataSet) (acc : List (String × List String))
    (others : List (String × DataSet))
    (hfresh : ∀ p ∈ others, p.2.name ∉ dictKeys acc)
    (hnodup : (others.map (fun p => p.2.name)).Nodup) :
    sync_loop main acc others =
      acc ++ (others.map (fun p => (p.2.name,
        (p.2.dq_rules.filter (fun r => headerMismatch main r)).map
          (fun r => r.data_quality_control_name)))).filter
        (fun q => ¬ q.2 = []) := by
  revert hfresh hnodup
  induction others generalizing acc with
  | nil =>
      intro _ _
      simp [sync_loop]
  | cons p rest ih =>
      intro hfresh hnodup
      obtain ⟨k, s⟩ := p
      have hsname : s.name ∉ rest.map (fun p => p.2.name) :=
        (List.nodup_cons.mp (by simpa using hnodup)).1
      have htail : (rest.map (fun p => p.2.name)).Nodup :=
        (List.nodup_cons.mp (by simpa using hnodup)).2
      rw [sync_loop, sync_inner_fresh main s.name acc s.dq_rules
        (hfresh (k, s) (List.mem_cons_self _ _))]
      by_cases hL : (s.dq_rules.filter (fun r => headerMismatch main r)).map
          (fun r => r.data_quality_control_name) = []
      · rw [if_pos hL,
          ih acc (fun q hq => hfresh q (List.mem_cons_of_mem _ hq)) htail]
        simp [hL]
      · rw [if_neg hL, ih (acc ++ [(s.name,
          (s.dq_rules.filter (fun r => headerMismatch main r)).map
            (fun r => r.data_quality_control_name))]) ?_ htail]
        · simp [hL, List.append_assoc]
        · intro q hq hmem
          unfold dictKeys at hmem
          rw [List.map_append] at hmem
          rcases List.mem_append.mp hmem with h1 | h2
          · exact hfresh q (List.mem_cons_of_mem _ hq) h1
          · have hqs : q.2.name = s.name := by simpa using h2
            exact hsname (hqs ▸ List.mem_map_of_mem (fun p => p.2.name) hq)

/-- C7: `sync_check` lists, per other source and in that source's rule
order, the original display names of exactly those of its rules that main
knows by normalized name but whose header set differs; rules main does not
know are skipped; sources with no such rule get no entry. -/
theorem sync_check_spec (main : DataSet) (others : List (String × DataSet))
    (hnodup : (others.map (fun p => p.2.name)).Nodup) :
    sync_check main others =
      (others.map (fun p => (p.2.name,
        (p.2.dq_rules.filter (fun r => headerMismatch main r)).map
          (fun r => r.data_quality_control_name)))).filter
        (fun q => ¬ q.2 = []) ∧
    (∀ r, headerMismatch main r = true ↔
      ∃ mr, main.rule_by_name r.normalized_name = some mr ∧
        r.header_set ≠ mr.header_set) := by
  refine ⟨?_, fun r => ?_⟩
  · rw [sync_check, sync_loop_eq main [] others (by simp [dictKeys]) hnodup]
    rfl
  · unfold headerMismatch
    cases hmr : main.rule_by_name r.normalized_name with
    | none => simp
    | some mr => simp

/-- C7 witness: against main's `ruleA`, the other source "O" matches
`ruleA2` (equal header sets, skipped), mismatches `ruleAx` (appended under
its original display name) and has `ruleB` unknown to main (skipped). -/
theorem sync_check_spec_witness :
    sync_check dsMain [("o", dsOther)] =
      ([("o", dsOther)].map (fun p => (p.2.name,
        (p.2.dq_rules.filter (fun r => headerMismatch dsMain r)).map
          (fun r => r.data_quality_control_name)))).filter
        (fun q => ¬ q.2 = []) ∧
    (∀ r, headerMismatch dsMain r = true ↔
      ∃ mr, dsMain.rule_by_name r.normalized_name = some mr ∧
        r.header_set ≠ mr.header_set) :=
  sync_check_spec dsMain [("o", dsOther)] (by decide)

/-- `header_set` is the finset of the normalized token list, also for the
empty header string (whose lone empty token is filtered out anyway). -/
theorem header_set_eq_tokens (r : DataQualityRule) :
    r.header_set =
      (((pySplitComma r.header).filter (fun h => decide (pyStrip h ≠ ""))).map
        (fun h => pyLower (pyStrip h))).toFinset := by
  unfold DataQualityRule.header_set
  by_cases h : r.header = ""
  · rw [if_pos h, h]
    decide
  · rw [if_neg h]

/-- C9: `header_set` is invariant under permutation of the comma-separated
tokens and under surrounding-whitespace and letter-case changes of each
token — whenever two header strings have normalized token lists that are
permutations of each other, the sets agree; in particular "A, b,C" and
"c , A , B" yield the same set. -/
theorem header_set_perm_invariant (r₁ r₂ : DataQualityRule)
    (hperm : (((pySplitComma r₁.header).filter
        (fun h => decide (pyStrip h ≠ ""))).map
        (fun h => pyLower (pyStrip h))).Perm
      (((pySplitComma r₂.header).filter
        (fun h => decide (pyStrip h ≠ ""))).map
        (fun h => pyLower (pyStrip h)))) :
    r₁.header_set = r₂.header_set ∧
    (DataQualityRule.mk "n" "A, b,C").header_set =
      (DataQualityRule.mk "n" "c , A , B").header_set := by
  refine ⟨?_, by decide⟩
  rw [header_set_eq_tokens r₁, header_set_eq_tokens r₂]
  exact List.toFinset_eq_of_perm _ _ hperm

/-- C9 witness: the example strings of the claim. -/
theorem header_set_perm_invariant_witness :
    (DataQualityRule.mk "nm" "A, b,C").header_set =
      (DataQualityRule.mk "nm" "c , A , B").header_set :=
  (header_set_perm_invariant (DataQualityRule.mk "nm" "A, b,C")
    (DataQualityRule.mk "nm" "c , A , B") (by decide)).1
